import Mathlib

/-!
Shallow embedding of the GoChat server (`ChatClient.go`, server part) and the
relevant client-side functions (client part of the same file), as executable
Lean definitions, followed by theorems settling the spec claims.

Modelling conventions:
* The SQLite tables `Users`, `Rooms`, `Messages` are lists of rows in
  insertion order (the order a plain scan returns; no query uses ORDER BY).
* Go maps (`wsconns : map[int]*websocket.Conn`, `activeRooms : map[int][]string`)
  are association lists; `wsconns` keeps only the key set (the registered
  user ids), since broadcasting is modelled as the list of (key, message)
  pairs written.
* `db.Exec` failure of the INSERT in `postMessage` is a boolean parameter
  `insertFails`; `log.Fatal` is the outcome `PostOutcome.fatalExit`
  (process exit).
* Pointer fields of the Go `Message` struct that the code dereferences
  unconditionally are plain values; `Epoch`, which may be nil on the wire,
  is an `Option Int`.
-/

/-- Row of the `Messages` table. The INSERT in server `postMessage` fills
`UserID` and `RoomID` from subselects that yield NULL when the name is
unknown, hence the `Option`. -/
structure MsgRow where
  userID : Option Nat
  epoch : Int
  messageText : String
  roomID : Option Nat
  deriving DecidableEq, Repr

/-- Wire-level message (the Go `Message` struct): sender name, optional
epoch, text, room name. -/
structure Message where
  sender : String
  epoch : Option Int
  messageText : String
  roomName : String
  deriving DecidableEq, Repr

/-- Server state: the three SQLite tables plus the two global Go maps. -/
structure ServerState where
  users : List (Nat × String)
  rooms : List (Nat × String)
  messages : List MsgRow
  activeRooms : List (Nat × List String)
  wsconns : List Nat
  deriving DecidableEq, Repr

/-- Go `getRoomID`: SELECT RoomID FROM Rooms WHERE RoomName = ?; `none`
models the (-1, err) return. -/
def getRoomID (rooms : List (Nat × String)) (roomName : String) : Option Nat :=
  (rooms.find? (fun p => p.2 == roomName)).map (fun p => p.1)

/-- Go `roomExists`: whether a `Rooms` row with this name exists. -/
def roomExists (rooms : List (Nat × String)) (name : String) : Bool :=
  rooms.any (fun p => p.2 == name)

/-- Go `userExists`: whether a `Users` row with this name exists. -/
def userExists (users : List (Nat × String)) (name : String) : Bool :=
  users.any (fun p => p.2 == name)

/-- Subselect `(SELECT UserID FROM Users WHERE Name = ?)` used by the
INSERT in server `postMessage`. -/
def getUserIDByNameDB (users : List (Nat × String)) (name : String) : Option Nat :=
  (users.find? (fun p => p.2 == name)).map (fun p => p.1)

/-- Go `createRoom`: INSERT OR IGNORE INTO Rooms; a fresh id is assigned
when the name is new. -/
def createRoom (rooms : List (Nat × String)) (name : String) : List (Nat × String) :=
  if roomExists rooms name then rooms
  else rooms ++ [((rooms.map (fun p => p.1)).foldr max 0 + 1, name)]

/-- Read `activeRooms[roomID]` (a missing key reads as the empty slice). -/
def lookupActive (ar : List (Nat × List String)) (rid : Nat) : List String :=
  ((ar.find? (fun p => p.1 == rid)).map (fun p => p.2)).getD []

/-- Go map assignment `activeRooms[roomID] = ms`: update the entry if the
key is present, else add it. -/
def setActive (ar : List (Nat × List String)) (rid : Nat) (ms : List String) :
    List (Nat × List String) :=
  match ar with
  | [] => [(rid, ms)]
  | p :: rest => if p.1 == rid then (rid, ms) :: rest else p :: setActive rest rid ms

/-- HTTP result of a handler: implicit 200, or an http.Error 400 write. -/
inductive HStatus where
  | ok
  | badRequest
  deriving DecidableEq, Repr

/-- Go `joinRoomHandler`: validate the user, create the room if absent,
then append the user name to `activeRooms[roomID]`. -/
def joinRoomHandler (st : ServerState) (user room : String) :
    ServerState × HStatus :=
  if userExists st.users user then
    let st1 := if roomExists st.rooms room then st
               else { st with rooms := createRoom st.rooms room }
    match getRoomID st1.rooms room with
    | none => (st1, HStatus.badRequest)
    | some rid =>
        let members := lookupActive st1.activeRooms rid
        ({ st1 with activeRooms := setActive st1.activeRooms rid (members ++ [user]) },
         HStatus.ok)
  else (st, HStatus.badRequest)

/-- Go `remove(s, i)`: `s[i] = s[len(s)-1]; s[len(s)-1] = ""`. The caller
in `leaveRoomHandler` discards the returned truncated slice, so only these
two in-place writes are observable — the length never shrinks. -/
def removeAt (s : List String) (i : Nat) : List String :=
  (s.set i (s.getD (s.length - 1) "")).set (s.length - 1) ""

/-- One pass of the `for i, userName := range activeRooms[roomID]` loop in
`leaveRoomHandler`: the range length is fixed at loop entry, each element
is re-read from the (mutated in place) slice. -/
def leaveGo (user : String) : Nat → Nat → List String → List String
  | 0, _, s => s
  | fuel + 1, i, s =>
      leaveGo user fuel (i + 1) (if s.getD i "" == user then removeAt s i else s)

/-- The whole removal loop of `leaveRoomHandler` over a member slice. -/
def leaveLoop (user : String) (s : List String) : List String :=
  leaveGo user s.length 0 s

/-- Go `leaveRoomHandler`: validate the user; on unknown room an error is
written but (missing `return`) the loop then runs over the nil slice
`activeRooms[-1]`, changing nothing; otherwise the removal loop mutates
the room's member slice in place. -/
def leaveRoomHandler (st : ServerState) (user room : String) :
    ServerState × HStatus :=
  if userExists st.users user then
    match getRoomID st.rooms room with
    | none => (st, HStatus.badRequest)
    | some rid =>
        ({ st with activeRooms :=
            st.activeRooms.map (fun p => if p.1 == rid then (p.1, leaveLoop user p.2) else p) },
         HStatus.ok)
  else (st, HStatus.badRequest)

/-- The spec's `MembersOf(room)` observer over the server state. -/
def membersOf (st : ServerState) (room : String) : List String :=
  match getRoomID st.rooms room with
  | some rid => lookupActive st.activeRooms rid
  | none => []

/-- INNER JOIN of one `Messages` row with `Users` and `Rooms` (the SELECT
shared by `getMessages`, `getMessagesAfter` and `socketHandler`): rows
whose UserID or RoomID matches nothing are dropped. -/
def joinRow (users rooms : List (Nat × String)) (row : MsgRow) : Option Message :=
  match row.userID.bind (fun uid => ((users.find? (fun p => p.1 == uid)).map (fun p => p.2))),
        row.roomID.bind (fun rid => ((rooms.find? (fun p => p.1 == rid)).map (fun p => p.2))) with
  | some uname, some rname =>
      some { sender := uname, epoch := some row.epoch,
             messageText := row.messageText, roomName := rname }
  | some _, none => none
  | none, _ => none

/-- Table scan of Go `getMessages`: WHERE Rooms.RoomName = ?. -/
def scanMessages (users rooms : List (Nat × String)) (msgs : List MsgRow)
    (roomName : String) : List Message :=
  msgs.filterMap (fun row =>
    match joinRow users rooms row with
    | some m => if m.roomName == roomName then some m else none
    | none => none)

/-- Table scan of Go `getMessagesAfter`: WHERE Rooms.RoomName = ? AND
Epoch >= ?. -/
def scanMessagesAfter (users rooms : List (Nat × String)) (msgs : List MsgRow)
    (roomName : String) (epoch : Int) : List Message :=
  msgs.filterMap (fun row =>
    match joinRow users rooms row with
    | some m => if m.roomName == roomName && decide (epoch ≤ row.epoch) then some m else none
    | none => none)

/-- Go `getMessages` on the server state. -/
def getMessages (st : ServerState) (roomName : String) : List Message :=
  scanMessages st.users st.rooms st.messages roomName

/-- Go `getMessagesAfter` on the server state. -/
def getMessagesAfter (st : ServerState) (roomName : String) (epoch : Int) : List Message :=
  scanMessagesAfter st.users st.rooms st.messages roomName epoch

/-- Outcome of server `postMessage`: normal return, or the `log.Fatal`
process exit taken when the INSERT fails. -/
inductive PostOutcome where
  | ok
  | fatalExit
  deriving DecidableEq, Repr

/-- Go server `postMessage`. Faithful points: the broadcast loop
`for userID := range activeRooms[roomID]` ranges over a `[]string`, so
`userID` takes the slice indices 0..len-1, and those indices are looked up
in `wsconns`; a failed `getRoomID` is only logged and the INSERT still
runs (with a NULL RoomID subselect); the epoch written is always
`time.Now().Unix()` (`now`); an INSERT error hits `log.Fatal`. Returns the
new state, the list of (wsconns key, message) pushes performed, and the
outcome. -/
def postMessage (st : ServerState) (now : Int) (msg : Message)
    (insertFails : Bool) : ServerState × List (Nat × Message) × PostOutcome :=
  let sends :=
    match getRoomID st.rooms msg.roomName with
    | none => []
    | some roomID =>
        let members := lookupActive st.activeRooms roomID
        ((List.range members.length).filter (fun userID => st.wsconns.contains userID)).map
          (fun userID => (userID, msg))
  if insertFails then (st, sends, PostOutcome.fatalExit)
  else
    ({ st with messages := st.messages ++
        [{ userID := getUserIDByNameDB st.users msg.sender, epoch := now,
           messageText := msg.messageText, roomID := getRoomID st.rooms msg.roomName }] },
     sends, PostOutcome.ok)

/-- Go `socketHandler`: register the connection under the user id from the
query string, then immediately run the SELECT on room "TEST" with
Epoch >= now-3600 and push every returned row to the new client. Returns
the new state and the pushed messages. -/
def socketHandler (st : ServerState) (now : Int) (userID : Nat) :
    ServerState × List Message :=
  let st1 := { st with wsconns :=
      if st.wsconns.contains userID then st.wsconns else st.wsconns ++ [userID] }
  (st1, getMessagesAfter st1 "TEST" (now - 3600))

/-- Client-side record of a joined room (client `Room` struct). -/
structure ClientRoom where
  roomName : String
  lastUpdate : Int
  deriving DecidableEq, Repr

/-- Success path of client `joinRoom`: the room is appended with
`lastUpdate = time.Now().Unix() - 3600`. -/
def clientJoinRoom (rooms : List ClientRoom) (roomName : String) (now : Int) :
    List ClientRoom :=
  rooms ++ [{ roomName := roomName, lastUpdate := now - 3600 }]

/-- One pass of the inner loop of client `updateMessages`:
`room := (*activeRooms)[i]` copies the struct by value, the request uses
`room.lastUpdate` as message-start-time, and `room.lastUpdate = now`
mutates only the discarded copy (`_room`). Returns the room list after the
pass and the (roomName, message-start-time) requests issued. -/
def updateTick (rooms : List ClientRoom) (now : Int) :
    List ClientRoom × List (String × Int) :=
  (List.range rooms.length).foldl
    (fun (acc : List ClientRoom × List (String × Int)) i =>
      match acc.1[i]? with
      | none => acc
      | some room =>
          let req := (room.roomName, room.lastUpdate)
          let _room := { room with lastUpdate := now }
          (acc.1, acc.2 ++ [req]))
    (rooms, [])

/-- How a client post left the process: sent on the websocket, sent via
the HTTP fallback, or `log.Fatal` (only when the HTTP POST itself errors). -/
inductive SendPath where
  | websocket
  | httpFallback
  | crashed
  deriving DecidableEq, Repr

/-- Client `postMessage`: substitute `lastActiveRoom` for an empty room,
build the message (no epoch), try the websocket write; on error marshal
the same message and POST it, dying only if the POST errors. `wsOk` and
`httpOk` model the success of the two external writes. -/
def clientPostMessage (wsOk httpOk : Bool) (room lastActiveRoom message sender : String) :
    SendPath × Message :=
  let room := if room == "" then lastActiveRoom else room
  let msg : Message := { sender := sender, epoch := none,
                         messageText := message, roomName := room }
  if wsOk then (SendPath.websocket, msg)
  else if httpOk then (SendPath.httpFallback, msg)
  else (SendPath.crashed, msg)

/-- Boolean test `epoch >= t` on a returned message (the WHERE clause of
`getMessagesAfter` seen on the output row). -/
def epochGE (t : Int) (m : Message) : Bool :=
  match m.epoch with
  | some e => decide (t ≤ e)
  | none => false

/-- Rows of the Messages table are in non-decreasing epoch order. This is
the store invariant (every INSERT stamps the server clock, which is
monotone), spec invariant 3. -/
def epochsMono (msgs : List MsgRow) : Prop :=
  List.Pairwise (fun a b => a.epoch ≤ b.epoch) msgs

/-- Output messages are in non-decreasing epoch order. -/
def messagesSorted (msgs : List Message) : Prop :=
  List.Pairwise (fun a b => a.epoch.getD 0 ≤ b.epoch.getD 0) msgs

/-- Concrete state: user "alice" exists, no room at all. -/
def st1c : ServerState :=
  { users := [(1, "alice")], rooms := [], messages := [], activeRooms := [],
    wsconns := [] }

/-- Concrete state: "alice" (user id 5) is a member of room "general"
(room id 1) and her connection is registered under key 5. -/
def st2c : ServerState :=
  { users := [(5, "alice")], rooms := [(1, "general")], messages := [],
    activeRooms := [(1, ["alice"])], wsconns := [5] }

/-- Concrete state: users "u" and "x", room "r", nobody joined yet. -/
def st3c : ServerState :=
  { users := [(1, "u"), (2, "x")], rooms := [(1, "r")], messages := [],
    activeRooms := [], wsconns := [] }

/-- Concrete state: user "u", room "r", nobody joined yet. -/
def st4c : ServerState :=
  { users := [(1, "u")], rooms := [(1, "r")], messages := [], activeRooms := [],
    wsconns := [] }

/-- Concrete state: "alice" in room "r", and a connection registered under
key 0 (so the index-keyed broadcast loop finds a target). -/
def st5c : ServerState :=
  { users := [(1, "alice")], rooms := [(1, "r")], messages := [],
    activeRooms := [(1, ["alice"])], wsconns := [0] }

/-- Concrete state with two persisted rows of room "r" (epochs 10, 20) and
one of room "TEST" (epoch 30). -/
def st6c : ServerState :=
  { users := [(1, "a")], rooms := [(1, "r"), (2, "TEST")],
    messages := [{ userID := some 1, epoch := 10, messageText := "m1", roomID := some 1 },
                 { userID := some 1, epoch := 20, messageText := "m2", roomID := some 1 },
                 { userID := some 1, epoch := 30, messageText := "t1", roomID := some 2 }],
    activeRooms := [], wsconns := [] }

/-! Helper lemmas. -/

lemma length_removeAt (s : List String) (i : Nat) :
    (removeAt s i).length = s.length := by
  simp [removeAt]

lemma count_set_add (l : List String) (i : Nat) (a u : String) (h : i < l.length) :
    (l.set i a).count u + (if l[i] = u then 1 else 0)
      = l.count u + (if a = u then 1 else 0) := by
  induction l generalizing i with
  | nil => simp at h
  | cons x xs ih =>
    cases i with
    | zero =>
      simp only [List.set, List.count_cons, List.getElem_cons_zero]
      by_cases hx : x = u <;> by_cases ha : a = u <;> simp [hx, ha]
    | succ n =>
      have hn : n < xs.length := by simpa using h
      simp only [List.set, List.count_cons, List.getElem_cons_succ]
      have := ih n hn
      by_cases hx : x = u <;> simp [hx] <;> omega

lemma count_removeAt_eq_zero (s : List String) (i : Nat) (u : String)
    (hi : i < s.length) (hu : s[i] = u) (hne : u ≠ "")
    (hcount : s.count u = 1) :
    (removeAt s i).count u = 0 := by
  have hn1 : s.length - 1 < s.length := by omega
  have hx : s.getD (s.length - 1) "" = s[s.length - 1] := by
    simp [List.getD_eq_getElem?_getD, List.getElem?_eq_getElem hn1]
  have h1 := count_set_add s i (s.getD (s.length - 1) "") u hi
  have hlen' : s.length - 1 < (s.set i (s.getD (s.length - 1) "")).length := by
    simpa using hn1
  have h2 := count_set_add (s.set i (s.getD (s.length - 1) "")) (s.length - 1) "" u hlen'
  have hstep1 : (s.set i (s.getD (s.length - 1) ""))[s.length - 1]
      = s.getD (s.length - 1) "" := by
    by_cases hieq : i = s.length - 1
    · subst hieq; simp
    · rw [List.getElem_set_ne (by omega)]
      exact hx.symm
  have hifu : (if s[i] = u then 1 else 0) = 1 := by rw [hu]; simp
  have hif0 : (if ("" : String) = u then (1 : Nat) else 0) = 0 :=
    if_neg (fun h => hne h.symm)
  rw [hifu, hcount] at h1
  rw [hstep1, hif0] at h2
  unfold removeAt
  by_cases hxu : s.getD (s.length - 1) "" = u
  · rw [if_pos hxu] at h1 h2; omega
  · rw [if_neg hxu] at h1 h2; omega

lemma leaveGo_of_not_mem (user : String) (fuel : Nat) :
    ∀ (i : Nat) (s : List String), i + fuel ≤ s.length → user ∉ s →
      leaveGo user fuel i s = s := by
  induction fuel with
  | zero => intro i s _ _; rfl
  | succ n ih =>
    intro i s hlen hmem
    have hi : i < s.length := by omega
    have hgd : s.getD i "" = s[i] := by
      simp [List.getD_eq_getElem?_getD, List.getElem?_eq_getElem hi]
    have hne : s[i] ≠ user := fun h => hmem (h ▸ List.getElem_mem hi)
    have hguard : (s.getD i "" == user) = false := by
      rw [hgd]; exact beq_eq_false_iff_ne.mpr hne
    unfold leaveGo
    rw [hguard]
    simp only [Bool.false_eq_true, if_false]
    exact ih (i + 1) s (by omega) hmem

lemma leaveGo_not_mem (user : String) (hne : user ≠ "") (fuel : Nat) :
    ∀ (i : Nat) (s : List String), i + fuel = s.length →
      s.count user ≤ 1 → user ∉ s.take i →
      user ∉ leaveGo user fuel i s := by
  induction fuel with
  | zero =>
    intro i s hlen _ htake
    have his : i = s.length := by omega
    subst his
    simpa [List.take_length] using htake
  | succ n ih =>
    intro i s hlen hcount htake
    have hi : i < s.length := by omega
    have hgd : s.getD i "" = s[i] := by
      simp [List.getD_eq_getElem?_getD, List.getElem?_eq_getElem hi]
    unfold leaveGo
    cases hguard : (s.getD i "" == user) with
    | false =>
      simp only [Bool.false_eq_true, if_false]
      refine ih (i + 1) s (by omega) hcount ?_
      have hnei : s[i] ≠ user := by
        rw [hgd] at hguard; exact beq_eq_false_iff_ne.mp hguard
      intro hmem
      rw [List.take_succ, List.getElem?_eq_getElem hi] at hmem
      rcases List.mem_append.mp hmem with h | h
      · exact htake h
      · simp at h; exact hnei h.symm
    | true =>
      simp only [if_true]
      have hsi : s[i] = user := by
        rw [hgd] at hguard; exact beq_iff_eq.mp hguard
      have hmem : user ∈ s := hsi ▸ List.getElem_mem hi
      have hc1 : s.count user = 1 :=
        Nat.le_antisymm hcount (List.count_pos_iff.mpr hmem)
      have h0 : (removeAt s i).count user = 0 :=
        count_removeAt_eq_zero s i user hi hsi hne hc1
      have hnm : user ∉ removeAt s i := List.count_eq_zero.mp h0
      refine ih (i + 1) (removeAt s i) (by rw [length_removeAt]; omega) ?_ ?_
      · rw [h0]; omega
      · intro hmem'
        exact hnm ((List.take_sublist _ _).mem hmem')

lemma leaveLoop_not_mem (user : String) (s : List String)
    (hne : user ≠ "") (hcount : s.count user ≤ 1) :
    user ∉ leaveLoop user s :=
  leaveGo_not_mem user hne s.length 0 s (by omega) hcount (by simp)

lemma leaveLoop_of_not_mem (user : String) (s : List String) (h : user ∉ s) :
    leaveLoop user s = s :=
  leaveGo_of_not_mem user s.length 0 s (by omega) h

lemma leaveLoop_nil (user : String) : leaveLoop user [] = [] := rfl

lemma lookupActive_setActive (ar : List (Nat × List String)) (rid : Nat)
    (ms : List String) :
    lookupActive (setActive ar rid ms) rid = ms := by
  induction ar with
  | nil => simp [setActive, lookupActive, List.find?_cons]
  | cons p rest ih =>
    by_cases hp : p.1 = rid
    · simp [setActive, lookupActive, List.find?_cons, hp]
    · simpa [setActive, lookupActive, List.find?_cons, hp] using ih

lemma lookupActive_map_leave (ar : List (Nat × List String)) (rid : Nat)
    (user : String) :
    lookupActive
        (ar.map (fun p => if p.1 == rid then (p.1, leaveLoop user p.2) else p)) rid
      = leaveLoop user (lookupActive ar rid) := by
  induction ar with
  | nil => simp [lookupActive, leaveLoop_nil]
  | cons p rest ih =>
    by_cases hp : p.1 = rid
    · simp [lookupActive, List.find?_cons, hp]
    · simpa [lookupActive, List.find?_cons, hp] using ih

lemma joinRow_epoch (users rooms : List (Nat × String)) (row : MsgRow)
    (m : Message) (h : joinRow users rooms row = some m) :
    m.epoch = some row.epoch := by
  unfold joinRow at h
  split at h
  · cases h; rfl
  · cases h
  · cases h

lemma scanAfter_eq_filter (users rooms : List (Nat × String)) (msgs : List MsgRow)
    (r : String) (t : Int) :
    scanMessagesAfter users rooms msgs r t
      = (scanMessages users rooms msgs r).filter (epochGE t) := by
  induction msgs with
  | nil => rfl
  | cons row rest ih =>
    unfold scanMessagesAfter scanMessages
    unfold scanMessagesAfter scanMessages at ih
    rw [List.filterMap_cons, List.filterMap_cons]
    cases hj : joinRow users rooms row with
    | none =>
      simpa [hj] using ih
    | some m =>
      have hep : m.epoch = some row.epoch := joinRow_epoch users rooms row m hj
      by_cases hr : m.roomName == r
      · by_cases ht : t ≤ row.epoch
        · have hge : epochGE t m = true := by simp [epochGE, hep, ht]
          simpa [hj, hr, ht, hge] using ih
        · have hge : epochGE t m = false := by simp [epochGE, hep, ht]
          simpa [hj, hr, ht, hge] using ih
      · simpa [hj, hr] using ih

lemma pairwise_filterMap_epoch (f : MsgRow → Option Message)
    (hf : ∀ row m, f row = some m → m.epoch = some row.epoch)
    (msgs : List MsgRow) (h : epochsMono msgs) :
    messagesSorted (msgs.filterMap f) := by
  unfold epochsMono at h
  unfold messagesSorted
  induction msgs with
  | nil => simp
  | cons row rest ih =>
    rw [List.filterMap_cons]
    rcases List.pairwise_cons.mp h with ⟨hrel, htail⟩
    cases hfr : f row with
    | none => exact ih htail
    | some m =>
      refine List.pairwise_cons.mpr ⟨?_, ih htail⟩
      intro b hb
      obtain ⟨rowb, hmemb, hfb⟩ := List.mem_filterMap.mp hb
      have h1 := hf row m hfr
      have h2 := hf rowb b hfb
      have h3 := hrel rowb hmemb
      rw [h1, h2]
      simpa using h3

lemma scanAfter_sorted (users rooms : List (Nat × String)) (msgs : List MsgRow)
    (r : String) (t : Int) (h : epochsMono msgs) :
    messagesSorted (scanMessagesAfter users rooms msgs r t) := by
  refine pairwise_filterMap_epoch _ ?_ msgs h
  intro row m hm
  cases hj : joinRow users rooms row with
  | none => simp [hj] at hm
  | some m2 =>
    simp only [hj] at hm
    by_cases hc : (m2.roomName == r && decide (t ≤ row.epoch)) = true
    · rw [if_pos hc] at hm
      injection hm with hmm
      rw [← hmm]
      exact joinRow_epoch users rooms row m2 hj
    · rw [if_neg hc] at hm
      cases hm

lemma roomExists_of_getRoomID (rooms : List (Nat × String)) (r : String)
    (rid : Nat) (h : getRoomID rooms r = some rid) :
    roomExists rooms r = true := by
  unfold getRoomID at h
  rcases Option.map_eq_some'.mp h with ⟨q, hq, _⟩
  have hpq := List.find?_some hq
  unfold roomExists
  exact List.any_eq_true.mpr ⟨q, List.mem_of_find?_eq_some hq, hpq⟩

lemma joinRoomHandler_eq (st : ServerState) (u r : String) (rid : Nat)
    (hu : userExists st.users u = true) (hr : getRoomID st.rooms r = some rid) :
    joinRoomHandler st u r
      = ({ st with activeRooms :=
            (setActive st.activeRooms rid (lookupActive st.activeRooms rid ++ [u])) },
         HStatus.ok) := by
  have hex : roomExists st.rooms r = true := roomExists_of_getRoomID st.rooms r rid hr
  unfold joinRoomHandler
  simp [hu, hex, hr]

lemma leaveRoomHandler_eq (st : ServerState) (u r : String) (rid : Nat)
    (hu : userExists st.users u = true) (hr : getRoomID st.rooms r = some rid) :
    leaveRoomHandler st u r
      = ({ st with activeRooms :=
            st.activeRooms.map (fun p => if p.1 == rid then (p.1, leaveLoop u p.2) else p) },
         HStatus.ok) := by
  unfold leaveRoomHandler
  simp [hu, hr]

lemma membersOf_eq (st : ServerState) (r : String) (rid : Nat)
    (hr : getRoomID st.rooms r = some rid) :
    membersOf st r = lookupActive st.activeRooms rid := by
  unfold membersOf
  rw [hr]

/-! Lemmas used by several claim theorems about join/leave. -/

lemma membersOf_leave (st : ServerState) (u r : String) (rid : Nat)
    (hu : userExists st.users u = true) (hr : getRoomID st.rooms r = some rid) :
    membersOf (leaveRoomHandler st u r).1 r
      = leaveLoop u (lookupActive st.activeRooms rid) := by
  obtain ⟨us, rs, ms, ar, ws⟩ := st
  rw [leaveRoomHandler_eq _ u r rid hu hr]
  unfold membersOf
  simp only at hr ⊢
  rw [hr]
  exact lookupActive_map_leave ar rid u

lemma membersOf_join (st : ServerState) (u r : String) (rid : Nat)
    (hu : userExists st.users u = true) (hr : getRoomID st.rooms r = some rid) :
    membersOf (joinRoomHandler st u r).1 r = membersOf st r ++ [u] := by
  obtain ⟨us, rs, ms, ar, ws⟩ := st
  rw [joinRoomHandler_eq _ u r rid hu hr]
  unfold membersOf
  simp only at hr ⊢
  rw [hr]
  exact lookupActive_setActive ar rid (lookupActive ar rid ++ [u])

lemma joinRoomHandler_users (st : ServerState) (u r : String) (rid : Nat)
    (hu : userExists st.users u = true) (hr : getRoomID st.rooms r = some rid) :
    (joinRoomHandler st u r).1.users = st.users := by
  rw [joinRoomHandler_eq st u r rid hu hr]

lemma joinRoomHandler_rooms (st : ServerState) (u r : String) (rid : Nat)
    (hu : userExists st.users u = true) (hr : getRoomID st.rooms r = some rid) :
    (joinRoomHandler st u r).1.rooms = st.rooms := by
  rw [joinRoomHandler_eq st u r rid hu hr]

/-! Claim theorems. -/

/-- Claim C1, counterexample: in `st1c` no room named "nope" exists, yet
`postMessage` returns normally (no `InvalidRoom` failure) and the INSERT
appends a row to the Messages table. -/
theorem postMessageMissingRoomCounterexample :
    getRoomID st1c.rooms "nope" = none
    ∧ (postMessage st1c 100
        { sender := "alice", epoch := none, messageText := "hi", roomName := "nope" }
        false).2.2 = PostOutcome.ok
    ∧ (postMessage st1c 100
        { sender := "alice", epoch := none, messageText := "hi", roomName := "nope" }
        false).1.messages.length = 1 := by
  exact ⟨rfl, rfl, rfl⟩

/-- Claim C1, amended: posting to a nonexistent room performs no broadcast,
but does not fail: the INSERT still runs (appending a row whose RoomID
subselect is NULL) and the call returns success when the INSERT succeeds. -/
theorem postMessageMissingRoomAmended (st : ServerState) (now : Int)
    (msg : Message) (h : getRoomID st.rooms msg.roomName = none) :
    (postMessage st now msg false).2.1 = []
    ∧ (postMessage st now msg false).2.2 = PostOutcome.ok
    ∧ (postMessage st now msg false).1.messages
        = st.messages ++ [{ userID := getUserIDByNameDB st.users msg.sender,
                            epoch := now, messageText := msg.messageText,
                            roomID := none }] := by
  unfold postMessage
  rw [h]
  exact ⟨rfl, rfl, rfl⟩

/-- Witness for `postMessageMissingRoomAmended` at `st1c`. -/
theorem postMessageMissingRoomAmendedWitness :
    getRoomID st1c.rooms
        ({ sender := "alice", epoch := none, messageText := "hi",
           roomName := "nope" } : Message).roomName = none
    ∧ ((postMessage st1c 100
          { sender := "alice", epoch := none, messageText := "hi", roomName := "nope" }
          false).2.1 = []
       ∧ (postMessage st1c 100
          { sender := "alice", epoch := none, messageText := "hi", roomName := "nope" }
          false).2.2 = PostOutcome.ok
       ∧ (postMessage st1c 100
          { sender := "alice", epoch := none, messageText := "hi", roomName := "nope" }
          false).1.messages
          = st1c.messages ++ [{ userID := getUserIDByNameDB st1c.users "alice",
                                epoch := 100, messageText := "hi",
                                roomID := none }]) :=
  ⟨rfl, postMessageMissingRoomAmended st1c 100
    { sender := "alice", epoch := none, messageText := "hi", roomName := "nope" } rfl⟩

/-- Claim C2 (code bug witness): in `st2c`, "alice" is a member of
"general" and her live transport is registered under her user id 5, yet
posting to the room pushes to nobody — the broadcast loop indexes
`wsconns` by the member's position in the member slice, never by the
member's user id. -/
theorem broadcastSkipsConnectedMember :
    membersOf st2c "general" = ["alice"]
    ∧ getUserIDByNameDB st2c.users "alice" = some 5
    ∧ st2c.wsconns = [5]
    ∧ (postMessage st2c 100
        { sender := "alice", epoch := none, messageText := "hello", roomName := "general" }
        false).2.1 = [] := by
  exact ⟨rfl, rfl, rfl, rfl⟩

/-- Claim C3, counterexample: joining "u" twice (with "x" in between)
makes the member slice ["u", "x", "u"]; the leave handler then fails to
remove "u" — the swap-remove overwrites index 0 with the last element,
which is "u" itself, so "u" is still a member afterwards. -/
theorem leaveKeepsDuplicateMember :
    membersOf ((joinRoomHandler ((joinRoomHandler ((joinRoomHandler st3c
        "u" "r").1) "x" "r").1) "u" "r").1) "r" = ["u", "x", "u"]
    ∧ "u" ∈ membersOf ((leaveRoomHandler ((joinRoomHandler ((joinRoomHandler
        ((joinRoomHandler st3c "u" "r").1) "x" "r").1) "u" "r").1) "u" "r").1) "r" := by
  exact ⟨rfl, by decide⟩

/-- Claim C3, amended: if the user occurs at most once in the room's
member list (which repeated Join can violate) and the user name is
nonempty, then after the leave handler the user is absent from
`MembersOf(r)`; leaving when not a member is a no-op (the member list is
unchanged) and reports no error. -/
theorem leaveRemovesUniqueMember (st : ServerState) (u r : String) (rid : Nat)
    (hu : userExists st.users u = true)
    (hr : getRoomID st.rooms r = some rid)
    (hne : u ≠ "")
    (hcount : (membersOf st r).count u ≤ 1) :
    u ∉ membersOf (leaveRoomHandler st u r).1 r
    ∧ (leaveRoomHandler st u r).2 = HStatus.ok
    ∧ (u ∉ membersOf st r → membersOf (leaveRoomHandler st u r).1 r = membersOf st r) := by
  have hmem : membersOf st r = lookupActive st.activeRooms rid :=
    membersOf_eq st r rid hr
  have hafter := membersOf_leave st u r rid hu hr
  refine ⟨?_, ?_, ?_⟩
  · rw [hafter]
    exact leaveLoop_not_mem u (lookupActive st.activeRooms rid) hne (hmem ▸ hcount)
  · rw [leaveRoomHandler_eq st u r rid hu hr]
  · intro hnm
    rw [hafter, hmem]
    exact leaveLoop_of_not_mem u (lookupActive st.activeRooms rid) (hmem ▸ hnm)

/-- Witness for `leaveRemovesUniqueMember`: "u" alone in room "r". -/
theorem leaveRemovesUniqueMemberWitness :
    (userExists ((joinRoomHandler st3c "u" "r").1).users "u" = true
     ∧ getRoomID ((joinRoomHandler st3c "u" "r").1).rooms "r" = some 1
     ∧ "u" ≠ ""
     ∧ (membersOf ((joinRoomHandler st3c "u" "r").1) "r").count "u" ≤ 1)
    ∧ "u" ∉ membersOf (leaveRoomHandler ((joinRoomHandler st3c "u" "r").1) "u" "r").1 "r" := by
  have h1 : userExists ((joinRoomHandler st3c "u" "r").1).users "u" = true := by decide
  have h2 : getRoomID ((joinRoomHandler st3c "u" "r").1).rooms "r" = some 1 := by decide
  have h3 : ("u" : String) ≠ "" := by decide
  have h4 : (membersOf ((joinRoomHandler st3c "u" "r").1) "r").count "u" ≤ 1 := by decide
  exact ⟨⟨h1, h2, h3, h4⟩,
    (leaveRemovesUniqueMember ((joinRoomHandler st3c "u" "r").1) "u" "r" 1 h1 h2 h3 h4).1⟩

/-- Claim C4, counterexample: joining the same (room, user) pair twice
leaves the user in the member list twice — `joinRoomHandler` appends
unconditionally, so Join is not idempotent. -/
theorem joinTwiceDuplicates :
    (membersOf ((joinRoomHandler ((joinRoomHandler st4c "u" "r").1) "u" "r").1) "r").count "u"
      = 2 := by
  decide

/-- Claim C4, amended: Join appends the user unconditionally; calling
Join twice with the same (r, u) adds two occurrences of u to the member
list (rather than leaving exactly one). -/
theorem joinTwiceCountsTwo (st : ServerState) (u r : String) (rid : Nat)
    (hu : userExists st.users u = true) (hr : getRoomID st.rooms r = some rid) :
    (membersOf ((joinRoomHandler ((joinRoomHandler st u r).1) u r).1) r).count u
      = (membersOf st r).count u + 2 := by
  have hu2 : userExists ((joinRoomHandler st u r).1).users u = true := by
    rw [joinRoomHandler_users st u r rid hu hr]; exact hu
  have hr2 : getRoomID ((joinRoomHandler st u r).1).rooms r = some rid := by
    rw [joinRoomHandler_rooms st u r rid hu hr]; exact hr
  rw [membersOf_join ((joinRoomHandler st u r).1) u r rid hu2 hr2,
      membersOf_join st u r rid hu hr]
  simp [List.count_append]

/-- Witness for `joinTwiceCountsTwo` at `st4c`. -/
theorem joinTwiceCountsTwoWitness :
    (userExists st4c.users "u" = true ∧ getRoomID st4c.rooms "r" = some 1)
    ∧ (membersOf ((joinRoomHandler ((joinRoomHandler st4c "u" "r").1) "u" "r").1) "r").count "u"
        = (membersOf st4c "r").count "u" + 2 :=
  ⟨⟨rfl, rfl⟩, joinTwiceCountsTwo st4c "u" "r" 1 rfl rfl⟩

/-- Claim C5 (code bug witness): when the INSERT of `postMessage` fails,
the function neither returns a `PersistenceError` nor aborts the
broadcast — the push fan-out has already run before the INSERT — and the
process dies via `log.Fatal`. In `st5c` the pre-insert broadcast reached
the connection registered under key 0, no row was stored, and the outcome
is the fatal process exit. -/
theorem insertFailureFatalExit :
    (postMessage st5c 100
      { sender := "alice", epoch := none, messageText := "m", roomName := "r" }
      true).2.2 = PostOutcome.fatalExit
    ∧ (postMessage st5c 100
        { sender := "alice", epoch := none, messageText := "m", roomName := "r" }
        true).2.1
        = [(0, { sender := "alice", epoch := none, messageText := "m", roomName := "r" })]
    ∧ (postMessage st5c 100
        { sender := "alice", epoch := none, messageText := "m", roomName := "r" }
        true).1 = st5c := by
  exact ⟨rfl, rfl, rfl⟩

/-- Claim C6: under the store invariant that persisted rows are in
non-decreasing epoch order, `getMessagesAfter r t` returns exactly the
rows of `getMessages r` with epoch >= t (inclusive), is a sublist (hence
subset) of `getMessages r`, and is ordered ascending by epoch. -/
theorem queryMessagesFiltered (st : ServerState) (r : String) (t : Int)
    (h : epochsMono st.messages) :
    getMessagesAfter st r t = (getMessages st r).filter (epochGE t)
    ∧ List.Sublist (getMessagesAfter st r t) (getMessages st r)
    ∧ messagesSorted (getMessagesAfter st r t) := by
  have h1 : getMessagesAfter st r t = (getMessages st r).filter (epochGE t) :=
    scanAfter_eq_filter st.users st.rooms st.messages r t
  refine ⟨h1, ?_, scanAfter_sorted st.users st.rooms st.messages r t h⟩
  rw [h1]
  exact List.filter_sublist _

/-- Witness for `queryMessagesFiltered` at `st6c` with threshold 20. -/
theorem queryMessagesFilteredWitness :
    epochsMono st6c.messages
    ∧ (getMessagesAfter st6c "r" 20 = (getMessages st6c "r").filter (epochGE 20)
       ∧ List.Sublist (getMessagesAfter st6c "r" 20) (getMessages st6c "r")
       ∧ messagesSorted (getMessagesAfter st6c "r" 20)) := by
  have h : epochsMono st6c.messages := by
    unfold epochsMono
    simp [st6c, List.pairwise_cons]
  exact ⟨h, queryMessagesFiltered st6c "r" 20 h⟩

/-- Claim C7: when the websocket write fails and the HTTP POST succeeds,
the client's `postMessage` falls back to HTTP with the very same message
it would have sent over the websocket, and the caller observes no
failure (in particular not the `log.Fatal` exit, which is reserved for a
failing HTTP POST). -/
theorem clientPostFallbackTransparent (room lastActive message sender : String) :
    (clientPostMessage false true room lastActive message sender).1 = SendPath.httpFallback
    ∧ (clientPostMessage false true room lastActive message sender).2
        = (clientPostMessage true true room lastActive message sender).2
    ∧ (clientPostMessage false true room lastActive message sender).1 ≠ SendPath.crashed := by
  refine ⟨rfl, rfl, ?_⟩
  intro h
  simp [clientPostMessage] at h

/-- Claim C8 (code bug witness): after joining room "r" at time 7200 the
poll window starts at 7200 - 3600 = 3600, and the first tick at time 7300
requests messages with epoch >= 3600; but the tick leaves the stored
`lastUpdate` at 3600 — the assignment `room.lastUpdate = time.Now().Unix()`
mutates a by-value copy, so the window is never advanced. -/
theorem pollerWindowNotAdvanced :
    clientJoinRoom [] "r" 7200 = [{ roomName := "r", lastUpdate := 3600 }]
    ∧ updateTick (clientJoinRoom [] "r" 7200) 7300
        = (clientJoinRoom [] "r" 7200, [("r", 3600)]) := by
  exact ⟨rfl, rfl⟩

/-- Claim C9, counterexample: a caller-supplied epoch 42 is not preserved;
the row is persisted with the server clock value 100. -/
theorem callerEpochIgnoredCounterexample :
    ((postMessage st4c 100
        { sender := "u", epoch := some 42, messageText := "hi", roomName := "r" }
        false).1.messages.map (fun row => row.epoch)) = [100]
    ∧ ((postMessage st4c 100
        { sender := "u", epoch := some 42, messageText := "hi", roomName := "r" }
        false).1.messages.map (fun row => row.epoch)) ≠ [42] := by
  exact ⟨rfl, by decide⟩

/-- Claim C9, amended: server `postMessage` always stamps the row with the
current server time; the caller-supplied epoch field is never read. -/
theorem postMessageEpochAlwaysNow (st : ServerState) (now : Int) (msg : Message) :
    (postMessage st now msg false).1.messages
      = st.messages ++ [{ userID := getUserIDByNameDB st.users msg.sender,
                          epoch := now, messageText := msg.messageText,
                          roomID := getRoomID st.rooms msg.roomName }] := by
  rfl

/-- Claim C10: on websocket connect the server registers the connection
under the supplied user id and then pushes exactly the stored messages of
the hardcoded room "TEST" from the last hour — the same list for every
connecting user id, independent of any room the user has joined. -/
theorem socketHandlerPushesTestHistory (st : ServerState) (now : Int) (u1 u2 : Nat) :
    (socketHandler st now u1).2 = (socketHandler st now u2).2
    ∧ (socketHandler st now u1).2 = (getMessages st "TEST").filter (epochGE (now - 3600))
    ∧ u1 ∈ (socketHandler st now u1).1.wsconns := by
  refine ⟨rfl, ?_, ?_⟩
  · exact scanAfter_eq_filter st.users st.rooms st.messages "TEST" (now - 3600)
  · show u1 ∈ (if st.wsconns.contains u1 then st.wsconns else st.wsconns ++ [u1])
    by_cases hc : st.wsconns.contains u1
    · rw [if_pos hc]
      simpa [List.contains, List.elem_iff] using hc
    · rw [if_neg hc]
      simp
